import Mathlib

/-!
Verification development for the log-scanning and aggregation engine in
src/logs_categorizer.py.  The Python source is shallowly embedded: lines of
text are lists of characters, regular-expression search is modelled by a
total Brzozowski-derivative matcher, the process-global mutable state of
analyze_files is threaded explicitly, and the side effects of main (directory
creation, report writing, exit codes) are recorded as an event trace.
-/

namespace LogsCategorizer

/-! ## Generic character and lexicographic orders

Python compares strings by code points and sorts lists with a stable merge
sort; the comparators below are Bool-valued so that they can drive
List.mergeSort and be evaluated by the kernel. -/

/-- Strict order on characters by code point, as Python compares text. -/
def chLt (a b : Char) : Bool := a.toNat < b.toNat

/-- Lexicographic non-strict order on lists induced by a strict order on
elements. -/
def lexLe (lt : α → α → Bool) : List α → List α → Bool
  | [], _ => true
  | _ :: _, [] => false
  | a :: as, b :: bs =>
    if lt a b then true else if lt b a then false else lexLe lt as bs

/-- Lexicographic strict order on lists induced by a strict order on
elements. -/
def lexLt (lt : α → α → Bool) : List α → List α → Bool
  | [], [] => false
  | [], _ :: _ => true
  | _ :: _, [] => false
  | a :: as, b :: bs =>
    if lt a b then true else if lt b a then false else lexLt lt as bs

/-- Code-point order on strings, the order Python uses to sort file name
strings. -/
def strLe (a b : String) : Bool := lexLe chLt a.data b.data

/-- Strict code-point order on strings. -/
def strLt (a b : String) : Bool := lexLt chLt a.data b.data

/-- Insertion of an element into a sorted list, before the first element it
compares at-most-equal to.  Together with sortBy this is a stable sort, the
behaviour of the Python sorted builtin; it is structurally recursive so the
kernel can evaluate it. -/
def insertSorted (le : α → α → Bool) (a : α) : List α → List α
  | [] => [a]
  | b :: l => if le a b then a :: b :: l else b :: insertSorted le a l

/-- Stable sort by a Bool comparator. -/
def sortBy (le : α → α → Bool) : List α → List α
  | [] => []
  | a :: l => insertSorted le a (sortBy le l)

/-! ## A total regular-expression matcher

The engine supports exactly the constructs appearing in the source regexes:
character classes, concatenation, alternation and Kleene star.  Matching is
by Brzozowski derivatives, with smart constructors keeping terms small. -/

inductive Regex where
  | emp : Regex
  | eps : Regex
  | cls : (Char → Bool) → Regex
  | alt : Regex → Regex → Regex
  | cat : Regex → Regex → Regex
  | star : Regex → Regex

/-- Whether a regex accepts the empty word. -/
def nullable : Regex → Bool
  | .emp => false
  | .eps => true
  | .cls _ => false
  | .alt r1 r2 => nullable r1 || nullable r2
  | .cat r1 r2 => nullable r1 && nullable r2
  | .star _ => true

/-- Smart alternation dropping the empty language. -/
def salt : Regex → Regex → Regex
  | .emp, r => r
  | r, .emp => r
  | r1, r2 => .alt r1 r2

/-- Smart concatenation simplifying units and zeros. -/
def scat : Regex → Regex → Regex
  | .emp, _ => .emp
  | _, .emp => .emp
  | .eps, r => r
  | r, .eps => r
  | r1, r2 => .cat r1 r2

/-- Brzozowski derivative of a regex with respect to one character. -/
def deriv : Regex → Char → Regex
  | .emp, _ => .emp
  | .eps, _ => .emp
  | .cls p, c => if p c then .eps else .emp
  | .alt r1 r2, c => salt (deriv r1 c) (deriv r2 c)
  | .cat r1 r2, c =>
    if nullable r1 then salt (scat (deriv r1 c) r2) (deriv r2 c)
    else scat (deriv r1 c) r2
  | .star r, c => scat (deriv r c) (.star r)

/-- Whole-word match of a regex against a character list. -/
def rmatch (r : Regex) (cs : List Char) : Bool :=
  nullable (cs.foldl deriv r)

/-- Class accepting every character; used to pad a pattern into an
unanchored search, the semantics of re.search. -/
def anyCharR : Regex := .cls (fun _ => true)

/-- Unanchored search: some substring of the input matches the regex.  This
models re.search returning a match object (truthiness only). -/
def rsearch (r : Regex) (cs : List Char) : Bool :=
  rmatch (.cat (.star anyCharR) (.cat r (.star anyCharR))) cs

/-! ## The error-pattern registry

Transcription of ERROR_PATTERNS (src/logs_categorizer.py lines 23 to 33),
compiled with re.IGNORECASE at line 92.  Case-insensitivity is modelled by
comparing lowered characters; the dot excludes the newline character, and
backslash-s is the ASCII whitespace class. -/

/-- Literal pattern character under re.IGNORECASE. -/
def rchar (c : Char) : Regex := .cls (fun d => d.toLower == c.toLower)

/-- Literal pattern string under re.IGNORECASE. -/
def rstr (s : String) : Regex := s.data.foldr (fun c r => .cat (rchar c) r) .eps

/-- Membership in the regex whitespace class. -/
def isWs (c : Char) : Bool :=
  c == ' ' || c == '\t' || c == '\n' || c == '\x0b' || c == '\x0c' || c == '\r'

/-- The regex dot: any character except newline. -/
def dotC : Regex := .cls (fun c => c != '\n')

/-- The pattern fragment dot-star. -/
def dotStar : Regex := .star dotC

/-- The pattern fragment backslash-s star. -/
def wsStar : Regex := .star (.cls isWs)

/-- The pattern fragment backslash-s plus. -/
def wsPlus : Regex := .cat (.cls isWs) wsStar

/-- Concatenation of a list of regex fragments. -/
def rcat (l : List Regex) : Regex := l.foldr .cat .eps

/-- Pattern of NetworkError. -/
def patNetworkError : Regex :=
  .alt (rcat [rstr "nsUtils", dotStar, rstr "err:", wsStar, rchar '5'])
       (rcat [rstr "network", wsPlus, rstr "list", dotStar, rstr "err:", wsStar, rchar '5'])

/-- Pattern of TunnelError. -/
def patTunnelError : Regex :=
  .alt (rcat [rstr "CTunnelMgr", dotStar, rstr "No tunnel found"])
       (rcat [rstr "tunnel", dotStar, rstr "not", wsPlus, rstr "found"])

/-- Pattern of Proxy403. -/
def patProxy403 : Regex :=
  .alt (rcat [rstr "HTTP", wsPlus, rstr "response", wsPlus, rstr "code:", wsStar, rstr "403"])
       (rstr "forbidden")

/-- Pattern of RecordingCorrupted. -/
def patRecordingCorrupted : Regex :=
  .alt (rcat [rstr "corrupted", wsPlus, rstr "recording"])
       (.alt (rstr "Failed to finalize record")
             (rstr "Recovery process failed to recover"))

/-- Pattern of PSM_DuplicateSession. -/
def patPSMDuplicateSession : Regex :=
  .alt (rcat [rstr "Duplicated session was ", .alt (rstr "created") (rstr "deleted")])
       (rcat [rstr "Session UUID", dotStar, rstr "was unregistered"])

/-- Pattern of PSM_VaultIssues. -/
def patPSMVaultIssues : Regex :=
  .alt (rstr "Attempting to delete the Vault user session")
       (.alt (rcat [rstr "Vault session ", dotStar, rstr " does not exist"])
             (rcat [rstr "Open vault file operation ", .alt (rstr "success") (rstr "fail")]))

/-- Pattern of PSM_ListenerLogoff. -/
def patPSMListenerLogoff : Regex :=
  .alt (rcat [rstr "PSM listener", dotStar, rstr "logoff"])
       (rstr "TSSession logoff event")

/-- Pattern of PSM_InternalConn. -/
def patPSMInternalConn : Regex :=
  rcat [rstr "InternalConnectionClient", dotStar,
        .alt (rstr "has stopped") (rstr "Terminating session process")]

/-- Pattern of Auth_TicketMissing. -/
def patAuthTicketMissing : Regex :=
  .alt (rstr "Ticket ID was not found")
       (.alt (rstr "Failed to find session identifiers")
             (rstr "session LUID was not found"))

/-- The compiled registry, in the order of ERROR_PATTERNS (source line 92). -/
def compiledPatterns : List (String × Regex) :=
  [("NetworkError", patNetworkError),
   ("TunnelError", patTunnelError),
   ("Proxy403", patProxy403),
   ("RecordingCorrupted", patRecordingCorrupted),
   ("PSM_DuplicateSession", patPSMDuplicateSession),
   ("PSM_VaultIssues", patPSMVaultIssues),
   ("PSM_ListenerLogoff", patPSMListenerLogoff),
   ("PSM_InternalConn", patPSMInternalConn),
   ("Auth_TicketMissing", patAuthTicketMissing)]

/-- First signature in registry order whose pattern matches; the inner loop
of analyze_files at lines 98 and 99 with the break at line 145. -/
def firstMatch (pats : List (String × Regex)) (line : List Char) : Option String :=
  match pats with
  | [] => none
  | (n, r) :: rest => if rsearch r line then some n else firstMatch rest line

/-- Classification of one line against the registry. -/
def matchLine (line : List Char) : Option String := firstMatch compiledPatterns line

/-! ## Timestamp extraction (extract_timestamp, source lines 45 to 60)

TS_PATTERNS holds two layouts: a bracketed DD/MM/YYYY date that must be
followed by a pipe character, and a 19-character ISO-like stamp with a space
or T separator.  Both are searched without IGNORECASE.  The capture group of
each is modelled directly as the matched character run. -/

/-- Numeric value of a decimal digit character. -/
def digitVal (c : Char) : Nat := c.toNat - 48

/-- Gregorian leap-year rule, as the datetime module applies it. -/
def isLeap (y : Nat) : Bool := y % 4 == 0 && (y % 100 != 0 || y % 400 == 0)

/-- Length of a month in the proleptic Gregorian calendar. -/
def daysInMonth (y m : Nat) : Nat :=
  if m == 2 then (if isLeap y then 29 else 28)
  else if m == 4 || m == 6 || m == 9 || m == 11 then 30
  else 31

/-- Validity of a calendar date for the datetime module: year 1 to 9999,
month 1 to 12, day within the month. -/
def dateValid (y m d : Nat) : Bool :=
  decide (1 ≤ y) && decide (y ≤ 9999) && decide (1 ≤ m) && decide (m ≤ 12) &&
  decide (1 ≤ d) && decide (d ≤ daysInMonth y m)

/-- Match of the first TS pattern at the head of the input: an opening
bracket, the DD/MM/YYYY group, then lazily any non-newline characters up to
a pipe.  Returns the captured group. -/
def isTs1At : List Char → Option (List Char)
  | '[' :: a :: b :: '/' :: c :: d :: '/' :: e :: f :: g :: h :: rest =>
    if a.isDigit && b.isDigit && c.isDigit && d.isDigit && e.isDigit &&
       f.isDigit && g.isDigit && h.isDigit &&
       (rest.takeWhile (fun x => x != '\n')).contains '|'
    then some [a, b, '/', c, d, '/', e, f, g, h]
    else none
  | _ => none

/-- Leftmost match of the first TS pattern, as re.search scans start
positions left to right. -/
def findTs1 : List Char → Option (List Char)
  | [] => none
  | c :: cs =>
    match isTs1At (c :: cs) with
    | some v => some v
    | none => findTs1 cs

/-- Match of the second TS pattern at the head of the input: the
19-character stamp with a space or T separator.  Returns the captured
group. -/
def isTs2At : List Char → Option (List Char)
  | y1 :: y2 :: y3 :: y4 :: '-' :: m1 :: m2 :: '-' :: d1 :: d2 :: sp ::
      h1 :: h2 :: ':' :: n1 :: n2 :: ':' :: s1 :: s2 :: _ =>
    if y1.isDigit && y2.isDigit && y3.isDigit && y4.isDigit &&
       m1.isDigit && m2.isDigit && d1.isDigit && d2.isDigit &&
       (sp == ' ' || sp == 'T') &&
       h1.isDigit && h2.isDigit && n1.isDigit && n2.isDigit &&
       s1.isDigit && s2.isDigit
    then some [y1, y2, y3, y4, '-', m1, m2, '-', d1, d2, sp, h1, h2, ':', n1, n2, ':', s1, s2]
    else none
  | _ => none

/-- Leftmost match of the second TS pattern. -/
def findTs2 : List Char → Option (List Char)
  | [] => none
  | c :: cs =>
    match isTs2At (c :: cs) with
    | some v => some v
    | none => findTs2 cs

/-- Shape test of source line 51: a full-string match of two digits, slash,
two digits, slash, four digits. -/
def isDMYShape : List Char → Bool
  | [a, b, '/', c, d, '/', e, f, g, h] =>
    a.isDigit && b.isDigit && c.isDigit && d.isDigit && e.isDigit &&
    f.isDigit && g.isDigit && h.isDigit
  | _ => false

/-- Validity of a DD/MM/YYYY group for datetime.strptime. -/
def dmyValid : List Char → Bool
  | [a, b, _, c, d, _, e, f, g, h] =>
    dateValid (1000 * digitVal e + 100 * digitVal f + 10 * digitVal g + digitVal h)
              (10 * digitVal c + digitVal d)
              (10 * digitVal a + digitVal b)
  | _ => false

/-- ISO form of a parsed DD/MM/YYYY group: the midnight instant of that
date, as datetime.isoformat renders it. -/
def isoOfDMY : List Char → List Char
  | [a, b, _, c, d, _, e, f, g, h] =>
    [e, f, g, h, '-', c, d, '-', a, b, 'T', '0', '0', ':', '0', '0', ':', '0', '0']
  | l => l

/-- Replacement of every space by T, modelling the str.replace call on
source lines 55, 136, 137 and 138. -/
def replSpT (cs : List Char) : List Char :=
  cs.map (fun c => if c == ' ' then 'T' else c)

/-- Normalization body of extract_timestamp (source lines 50 to 59).  For a
DD/MM/YYYY group, a valid date is rendered in ISO form and an invalid one is
returned raw (the strptime failure is caught and the unmodified group
returned).  For any other group the space separator is first replaced by T;
the subsequent fromisoformat call only raises an exception that is caught
and answered with the already-replaced value, so the replaced group is
returned whether or not it denotes a real instant. -/
def normTs (val : List Char) : String :=
  if isDMYShape val then
    if dmyValid val then String.mk (isoOfDMY val) else String.mk val
  else
    String.mk (replSpT val)

/-- Model of extract_timestamp: the TS patterns are tried in order and the
first match is normalized. -/
def extract_timestamp (line : List Char) : Option String :=
  match findTs1 line with
  | some val => some (normTs val)
  | none =>
    match findTs2 line with
    | some val => some (normTs val)
    | none => none

/-! ## UUID and session-id extraction (source lines 42, 43, 62 to 68) -/

/-- Membership in the class [0-9a-f] under re.IGNORECASE. -/
def isHexDigit (c : Char) : Bool :=
  c.isDigit || (decide (97 ≤ c.toLower.toNat) && decide (c.toLower.toNat ≤ 102))

/-- Consumption of exactly n hex digits, returning them and the rest. -/
def hexRun : Nat → List Char → Option (List Char × List Char)
  | 0, cs => some ([], cs)
  | _ + 1, [] => none
  | n + 1, c :: cs =>
    if isHexDigit c then
      match hexRun n cs with
      | some (xs, r) => some (c :: xs, r)
      | none => none
    else none

/-- Consumption of a single dash. -/
def dashThen : List Char → Option (List Char)
  | '-' :: cs => some cs
  | _ => none

/-- Match of the UUID pattern 8-4-4-4-12 at the head of the input,
returning the whole matched run. -/
def uuidAt (cs : List Char) : Option (List Char) := do
  let (g1, r1) ← hexRun 8 cs
  let r2 ← dashThen r1
  let (g2, r3) ← hexRun 4 r2
  let r4 ← dashThen r3
  let (g3, r5) ← hexRun 4 r4
  let r6 ← dashThen r5
  let (g4, r7) ← hexRun 4 r6
  let r8 ← dashThen r7
  let (g5, _) ← hexRun 12 r8
  pure (g1 ++ '-' :: g2 ++ '-' :: g3 ++ '-' :: g4 ++ '-' :: g5)

/-- Leftmost UUID-shaped token. -/
def findUuid : List Char → Option (List Char)
  | [] => none
  | c :: cs =>
    match uuidAt (c :: cs) with
    | some v => some v
    | none => findUuid cs

/-- Model of extract_uuid. -/
def extract_uuid (line : List Char) : Option String := (findUuid line).map String.mk

/-- Case-insensitive consumption of a literal, for the phrase session id. -/
def stripCI : List Char → List Char → Option (List Char)
  | [], cs => some cs
  | _ :: _, [] => none
  | p :: ps, c :: cs => if c.toLower == p.toLower then stripCI ps cs else none

/-- Match of the session-id pattern at the head of the input: the phrase,
one colon-or-whitespace character, optional whitespace, then the captured
digit run. -/
def sidAt (cs : List Char) : Option (List Char) :=
  match stripCI ("session id").data cs with
  | none => none
  | some rest =>
    match rest with
    | [] => none
    | c :: r2 =>
      if c == ':' || isWs c then
        let ds := (r2.dropWhile isWs).takeWhile Char.isDigit
        if ds.isEmpty then none else some ds
      else none

/-- Leftmost session-id match. -/
def findSid : List Char → Option (List Char)
  | [] => none
  | c :: cs =>
    match sidAt (c :: cs) with
    | some v => some v
    | none => findSid cs

/-- Model of extract_session_id, returning the captured digit group. -/
def extract_session_id (line : List Char) : Option String := (findSid line).map String.mk

/-- Model of str.strip on a line. -/
def pyStrip (cs : List Char) : String :=
  String.mk ((cs.dropWhile isWs).reverse.dropWhile isWs).reverse

/-! ## Timestamp parsing for the aggregation comparisons

datetime.fromisoformat is modelled on the 19-character layout, the only
layout the pipeline ever stores in first_seen, last_seen or an occurrence
timestamp: every other stored string (the raw DD/MM/YYYY fallback, or the
empty string) raises a ValueError in Python and parses to none here.  A
parsed instant is ranked by a mixed-radix integer that orders instants
chronologically. -/

/-- Mixed-radix rank of an instant; strictly monotone in the lexicographic
component order because every radix exceeds the component bound. -/
def tsRank (y m d h mi s : Nat) : Nat :=
  ((((y * 13 + m) * 32 + d) * 24 + h) * 60 + mi) * 60 + s

/-- Parse of a 19-character T-separated stamp into its rank, with full
calendar validation as fromisoformat performs it. -/
def parseIso19 : List Char → Option Nat
  | [y1, y2, y3, y4, '-', m1, m2, '-', d1, d2, 'T', h1, h2, ':', n1, n2, ':', s1, s2] =>
    if y1.isDigit && y2.isDigit && y3.isDigit && y4.isDigit &&
       m1.isDigit && m2.isDigit && d1.isDigit && d2.isDigit &&
       h1.isDigit && h2.isDigit && n1.isDigit && n2.isDigit &&
       s1.isDigit && s2.isDigit
    then
      let y := 1000 * digitVal y1 + 100 * digitVal y2 + 10 * digitVal y3 + digitVal y4
      let m := 10 * digitVal m1 + digitVal m2
      let d := 10 * digitVal d1 + digitVal d2
      let h := 10 * digitVal h1 + digitVal h2
      let mi := 10 * digitVal n1 + digitVal n2
      let s := 10 * digitVal s1 + digitVal s2
      if dateValid y m d && decide (h ≤ 23) && decide (mi ≤ 59) && decide (s ≤ 59)
      then some (tsRank y m d h mi s)
      else none
    else none
  | _ => none

/-- Parse of a stored timestamp string as source lines 136 to 138 perform
it: replace the space separator by T, then hand to fromisoformat. -/
def parseTsPy (s : String) : Option Nat := parseIso19 (replSpT s.data)

/-! ## Data model of analyze_files (source lines 88 to 152)

An occurrence is the dictionary built at lines 107 to 115; a summary entry
is the dictionary built at lines 118 to 128.  The Python dict keyed by error
name, which preserves insertion order, is an association list of entries. -/

structure Occurrence where
  error_name : String
  file : String
  line : Nat
  timestamp : String
  session_uuid : String
  session_id : String
  message : String
deriving DecidableEq, Repr

structure SummaryEntry where
  error_name : String
  count : Nat
  first_seen : String
  last_seen : String
  files : List String
  sample_message : String
deriving DecidableEq, Repr

/-- Addition to the Python set of affected files (source line 128).  The
set is modelled as a list without duplicates; membership order is irrelevant
because the list is sorted at finalization. -/
def addFileSet (fs : List String) (f : String) : List String :=
  if f ∈ fs then fs else fs ++ [f]

/-- Update of the first_seen and last_seen fields for one occurrence that
carries a nonempty timestamp (source lines 130 to 144).  Empty bounds are
first filled, then the three parses are attempted; only when all three
succeed are the bounds compared and widened, otherwise the exception is
swallowed and the filled bounds kept. -/
def pyTsUpdate (first last ts : String) : String × String :=
  let f1 := if first = "" then ts else first
  let l1 := if last = "" then ts else last
  match parseTsPy f1, parseTsPy l1, parseTsPy ts with
  | some fdt, some ldt, some cdt =>
    ((if cdt < fdt then ts else f1), (if cdt > ldt then ts else l1))
  | _, _, _ => (f1, l1)

/-- Fresh summary entry for a first occurrence (source lines 118 to 126):
count starts at zero and both bounds start from the occurrence timestamp,
which may be empty. -/
def newEntry (occ : Occurrence) : SummaryEntry :=
  { error_name := occ.error_name, count := 0, first_seen := occ.timestamp,
    last_seen := occ.timestamp, files := [], sample_message := occ.message }

/-- Per-occurrence mutation of an entry: count increment (line 127), file
set addition (line 128), and bound maintenance when the occurrence carries a
timestamp (lines 130 to 144). -/
def ingestOcc (e : SummaryEntry) (occ : Occurrence) : SummaryEntry :=
  let e1 := { e with count := e.count + 1, files := addFileSet e.files occ.file }
  if occ.timestamp = "" then e1
  else
    let p := pyTsUpdate e1.first_seen e1.last_seen occ.timestamp
    { e1 with first_seen := p.1, last_seen := p.2 }

/-- Ingestion of one occurrence into the summary: the entry of the matching
name is updated in place, or a fresh entry is appended in insertion order. -/
def ingest (s : List SummaryEntry) (occ : Occurrence) : List SummaryEntry :=
  match s with
  | [] => [ingestOcc (newEntry occ) occ]
  | e :: rest =>
    if e.error_name = occ.error_name then ingestOcc e occ :: rest
    else e :: ingest rest occ

/-- Construction of the occurrence for a matched line (source lines 100 to
115). -/
def mkOcc (name : String) (path : String) (lineno : Nat) (line : List Char) : Occurrence :=
  { error_name := name, file := path, line := lineno,
    timestamp := (extract_timestamp line).getD "",
    session_uuid := (extract_uuid line).getD "",
    session_id := (extract_session_id line).getD "",
    message := pyStrip line }

/-- Explicit form of the mutable state of analyze_files: the occurrence
list, the summary, and the diagnostic warnings printed to stderr. -/
structure AnalysisState where
  occurrences : List Occurrence
  summary : List SummaryEntry
  warnings : List String
deriving DecidableEq, Repr

/-- Processing of one line (the body of the loop at lines 97 to 145): the
first matching signature owns the line and contributes one occurrence; a
line matching no signature contributes nothing. -/
def scanLine (path : String) (st : AnalysisState) (lineno : Nat) (line : List Char) :
    AnalysisState :=
  match matchLine line with
  | none => st
  | some name =>
    let occ := mkOcc name path lineno line
    { st with occurrences := st.occurrences ++ [occ], summary := ingest st.summary occ }

/-- Sequential processing of the lines of one file with 1-based numbering
(the enumerate at line 97). -/
def scanLines (path : String) (st : AnalysisState) (lineno : Nat) :
    List (List Char) → AnalysisState
  | [] => st
  | l :: ls => scanLines path (scanLine path st lineno l) (lineno + 1) ls

/-- A file as analyze_files observes it: its rendered path, the lines its
handle yields, and whether the read raises after yielding them.  A file
whose open call itself fails yields no lines and fails. -/
structure FileData where
  path : String
  lines : List (List Char)
  failsAfter : Bool
deriving DecidableEq, Repr

/-- Processing of one file under the try of lines 95 to 147: the lines
yielded before any failure are scanned and their effects kept; a failure
only adds a diagnostic. -/
def processFile (st : AnalysisState) (f : FileData) : AnalysisState :=
  let st1 := scanLines f.path st 1 f.lines
  if f.failsAfter then
    { st1 with warnings := st1.warnings ++ ["[ERRO] Falha lendo " ++ f.path] }
  else st1

/-- Processing of every file in order. -/
def processFiles (st : AnalysisState) : List FileData → AnalysisState
  | [] => st
  | f :: fs => processFiles (processFile st f) fs

/-- Finalization of lines 149 to 150: each entry has its affected-file set
sorted into a list. -/
def finalizeEntry (e : SummaryEntry) : SummaryEntry :=
  { e with files := sortBy strLe e.files }

/-- Model of analyze_files: scan every file from the empty state, then sort
the affected-file sets. -/
def analyze_files (files : List FileData) : AnalysisState :=
  let st := processFiles ⟨[], [], []⟩ files
  { st with summary := st.summary.map finalizeEntry }

/-! ## Input collection (iter_input_files, source lines 73 to 83)

A path value is modelled as the component list of a pathlib PurePosixPath:
splitting on slashes discards empty components and single dots, and an
absolute path keeps a leading slash component.  Equality of path values is
equality of component lists, which is how the Python set deduplicates Path
objects, and sorting is lexicographic on components. -/

/-- Split of a character list at slashes, accumulating the current
component in reverse. -/
def splitSlashAux : List Char → List Char → List (List Char)
  | [], acc => [acc.reverse]
  | c :: cs, acc =>
    if c == '/' then acc.reverse :: splitSlashAux cs []
    else splitSlashAux cs (c :: acc)

/-- Component list of a path string, as pathlib parses it: empty components
and single dots are dropped, and an absolute path keeps a leading slash
component. -/
def pathParts (s : String) : List String :=
  let comps := ((splitSlashAux s.data []).map String.mk).filter (fun c => c ≠ "" && c ≠ ".")
  match s.data with
  | '/' :: _ => "/" :: comps
  | _ => comps

/-- Rendered form of a path value, as str applied to a Path. -/
def pathStr (p : List String) : String :=
  match p with
  | [] => "."
  | "/" :: rest => "/" ++ String.intercalate "/" rest
  | parts => String.intercalate "/" parts

/-- Order on path values: lexicographic on components, each component
compared by code points. -/
def pathLe (a b : List String) : Bool := lexLe strLt a b

/-- The file system as iter_input_files observes it: directory and file
tests on the raw argument strings, the txt files found under a directory,
and per-path content for the later scan. -/
structure FileSys where
  isDir : String → Bool
  isFile : String → Bool
  rglobTxt : String → List String
  readLines : List String → List (List Char)
  failsAfter : List String → Bool

/-- Resolution of one input argument: a directory contributes its
recursively found txt files, a plain file contributes itself, anything else
only warns (lines 75 to 82). -/
def resolveInput (fs : FileSys) (inp : String) : List (List String) :=
  if fs.isDir inp then (fs.rglobTxt inp).map pathParts
  else if fs.isFile inp then [pathParts inp]
  else []

/-- Concatenated resolutions of every input argument in order. -/
def collectInputs (fs : FileSys) (inputs : List String) : List (List String) :=
  inputs.foldr (fun i acc => resolveInput fs i ++ acc) []

/-- Model of iter_input_files: sorted(set(files)) at line 83. -/
def iter_input_files (fs : FileSys) (inputs : List String) : List (List String) :=
  sortBy pathLe (collectInputs fs inputs).dedup

/-- The FileData of a resolved path under a file system. -/
def fileOf (fs : FileSys) (p : List String) : FileData :=
  ⟨pathStr p, fs.readLines p, fs.failsAfter p⟩

/-! ## Report emission (write_csv_summary, source lines 173 to 183) -/

/-- Order of the summary rows: count descending, then error name ascending,
the key tuple of source line 179. -/
def sumLe (a b : SummaryEntry) : Bool :=
  decide (b.count < a.count) || (decide (a.count = b.count) && strLe a.error_name b.error_name)

/-- Row order of the summary artifacts: the stable sort of the entries by
the key of line 179. -/
def summaryRows (s : List SummaryEntry) : List SummaryEntry := sortBy sumLe s

/-- Quoting of one CSV field under the default csv dialect: a field holding
a comma, a quote or a line break is wrapped in quotes with inner quotes
doubled. -/
def csvField (s : String) : String :=
  let needs := s.data.any (fun c => c == ',' || c == '"' || c == '\n' || c == '\r')
  if needs then
    "\"" ++ String.mk (s.data.foldr (fun c acc => if c == '"' then '"' :: c :: acc else c :: acc) []) ++ "\""
  else s

/-- One summary CSV record (source lines 179 to 182), fields in the order
of line 176 and the affected files joined by semicolons. -/
def summaryRow (e : SummaryEntry) : String :=
  String.intercalate "," [csvField e.error_name, csvField (toString e.count),
    csvField e.first_seen, csvField e.last_seen,
    csvField (String.intercalate ";" e.files), csvField e.sample_message]

/-- Full text of the summary CSV: header then the sorted rows, each record
terminated by CRLF as the csv module writes it. -/
def write_csv_summary (s : List SummaryEntry) : String :=
  String.intercalate "\r\n"
    (("error_name,count,first_seen,last_seen,files,sample_message" ::
      (summaryRows s).map summaryRow)) ++ "\r\n"

/-! ## The CLI driver (main, source lines 207 to 242)

The side effects of main are recorded as an ordered event trace: the
recursive creation of the output directory (line 220), the resolution of the
input arguments (line 222), each report written, and the exit code.  A run
that finds no input files exits with status 2 before any report exists; a
completed run ends with status zero. -/

inductive Event where
  | mkdirParents : String → Event
  | resolveInputs : List String → Event
  | writeReport : String → Event
  | exitWith : Nat → Event
deriving DecidableEq, Repr

structure MainArgs where
  input : List String
  output : String
  basename : String
  exportJson : Bool
deriving DecidableEq, Repr

/-- Whether an event writes a report file. -/
def isWriteEvent : Event → Bool
  | .writeReport _ => true
  | _ => false

/-- Model of main: the event trace and, when the run proceeds, the analysis
result. -/
def main (fs : FileSys) (args : MainArgs) : List Event × Option AnalysisState :=
  let files := iter_input_files fs args.input
  if files.isEmpty then
    ([.mkdirParents args.output, .resolveInputs args.input, .exitWith 2], none)
  else
    let st := analyze_files (files.map (fileOf fs))
    ([.mkdirParents args.output, .resolveInputs args.input,
      .writeReport (args.output ++ "/" ++ args.basename ++ "_erros_detalhados.csv"),
      .writeReport (args.output ++ "/" ++ args.basename ++ "_erros_resumo.csv"),
      .writeReport (args.output ++ "/" ++ args.basename ++ "_RELATORIO_SUMARIO.md")]
      ++ (if args.exportJson then
            [Event.writeReport (args.output ++ "/" ++ args.basename ++ "_resumo.json")]
          else [])
      ++ [.exitWith 0], some st)

/-! ## Order-theoretic helper lemmas for the sort comparators -/

theorem bnot_true {b : Bool} (h : ¬ b = true) : b = false := by
  cases b
  · rfl
  · exact absurd rfl h

theorem lexLe_total (lt : α → α → Bool) :
    ∀ as bs : List α, (lexLe lt as bs || lexLe lt bs as) = true := by
  intro as
  induction as with
  | nil => intro bs; simp [lexLe]
  | cons a as ih =>
    intro bs
    cases bs with
    | nil => simp [lexLe]
    | cons b bs =>
      simp only [lexLe]
      by_cases h1 : lt a b = true
      · simp [h1]
      · by_cases h2 : lt b a = true
        · simp [h2]
        · simp only [Bool.not_eq_true] at h1 h2
          simpa [h1, h2] using ih bs

theorem lexLe_trans (lt : α → α → Bool)
    (htr : ∀ a b c, lt a b = true → lt b c = true → lt a c = true)
    (heq : ∀ a b, lt a b = false → lt b a = false → a = b) :
    ∀ as bs cs : List α, lexLe lt as bs = true → lexLe lt bs cs = true →
      lexLe lt as cs = true := by
  intro as
  induction as with
  | nil => intro bs cs _ _; cases cs <;> simp [lexLe]
  | cons a as ih =>
    intro bs cs h1 h2
    cases bs with
    | nil => simp [lexLe] at h1
    | cons b bs =>
      cases cs with
      | nil => simp [lexLe] at h2
      | cons c cs =>
        simp only [lexLe] at h1 h2 ⊢
        by_cases hab : lt a b = true
        · by_cases hbc : lt b c = true
          · simp [htr a b c hab hbc]
          · by_cases hcb : lt c b = true
            · simp [bnot_true hbc, hcb] at h2
            · have : b = c := heq b c (bnot_true hbc) (bnot_true hcb)
              subst this
              simp [hab]
        · by_cases hba : lt b a = true
          · simp [bnot_true hab, hba] at h1
          · have : a = b := heq a b (bnot_true hab) (bnot_true hba)
            subst this
            simp only [bnot_true hab, bnot_true hba] at h1 ⊢
            simp at h1
            by_cases hac : lt a c = true
            · simp [hac]
            · by_cases hca : lt c a = true
              · simp [bnot_true hac, hca] at h2
              · have : a = c := heq a c (bnot_true hac) (bnot_true hca)
                subst this
                simp only [bnot_true hac] at h2 ⊢
                simp at h2 ⊢
                exact ih bs cs h1 h2

theorem lexLt_trans (lt : α → α → Bool)
    (htr : ∀ a b c, lt a b = true → lt b c = true → lt a c = true)
    (heq : ∀ a b, lt a b = false → lt b a = false → a = b) :
    ∀ as bs cs : List α, lexLt lt as bs = true → lexLt lt bs cs = true →
      lexLt lt as cs = true := by
  intro as
  induction as with
  | nil =>
    intro bs cs h1 h2
    cases bs with
    | nil => simp [lexLt] at h1
    | cons b bs => cases cs with
      | nil => simp [lexLt] at h2
      | cons c cs => simp [lexLt]
  | cons a as ih =>
    intro bs cs h1 h2
    cases bs with
    | nil => simp [lexLt] at h1
    | cons b bs =>
      cases cs with
      | nil => simp [lexLt] at h2
      | cons c cs =>
        simp only [lexLt] at h1 h2 ⊢
        by_cases hab : lt a b = true
        · by_cases hbc : lt b c = true
          · simp [htr a b c hab hbc]
          · by_cases hcb : lt c b = true
            · simp [bnot_true hbc, hcb] at h2
            · have : b = c := heq b c (bnot_true hbc) (bnot_true hcb)
              subst this
              simp [hab]
        · by_cases hba : lt b a = true
          · simp [bnot_true hab, hba] at h1
          · have : a = b := heq a b (bnot_true hab) (bnot_true hba)
            subst this
            simp only [bnot_true hab, bnot_true hba] at h1 ⊢
            simp at h1
            by_cases hac : lt a c = true
            · simp [hac]
            · by_cases hca : lt c a = true
              · simp [bnot_true hac, hca] at h2
              · have : a = c := heq a c (bnot_true hac) (bnot_true hca)
                subst this
                simp only [bnot_true hac] at h2 ⊢
                simp at h2 ⊢
                exact ih bs cs h1 h2

theorem lexLt_eq (lt : α → α → Bool)
    (heq : ∀ a b, lt a b = false → lt b a = false → a = b) :
    ∀ as bs : List α, lexLt lt as bs = false → lexLt lt bs as = false → as = bs := by
  intro as
  induction as with
  | nil =>
    intro bs h1 _
    cases bs with
    | nil => rfl
    | cons b bs => simp [lexLt] at h1
  | cons a as ih =>
    intro bs h1 h2
    cases bs with
    | nil => simp [lexLt] at h2
    | cons b bs =>
      simp only [lexLt] at h1 h2
      by_cases hab : lt a b = true
      · simp [hab] at h1
      · by_cases hba : lt b a = true
        · simp [bnot_true hab, hba] at h2
        · have hab' := bnot_true hab
          have hba' := bnot_true hba
          have he : a = b := heq a b hab' hba'
          subst he
          simp only [hab'] at h1 h2
          simp at h1 h2
          rw [ih bs h1 h2]

theorem chLt_trans (a b c : Char) (h1 : chLt a b = true) (h2 : chLt b c = true) :
    chLt a c = true := by
  simp only [chLt, decide_eq_true_eq] at h1 h2 ⊢
  omega

theorem chLt_eq (a b : Char) (h1 : chLt a b = false) (h2 : chLt b a = false) : a = b := by
  simp only [chLt, decide_eq_false_iff_not, Nat.not_lt] at h1 h2
  have : a.toNat = b.toNat := Nat.le_antisymm h2 h1
  exact Char.ext (UInt32.toNat.inj this)

theorem strLt_trans (a b c : String) (h1 : strLt a b = true) (h2 : strLt b c = true) :
    strLt a c = true :=
  lexLt_trans chLt chLt_trans chLt_eq a.data b.data c.data h1 h2

theorem strLt_eq (a b : String) (h1 : strLt a b = false) (h2 : strLt b a = false) : a = b :=
  String.ext (lexLt_eq chLt chLt_eq a.data b.data h1 h2)

theorem strLe_total (a b : String) : (strLe a b || strLe b a) = true :=
  lexLe_total chLt a.data b.data

theorem strLe_trans (a b c : String) (h1 : strLe a b = true) (h2 : strLe b c = true) :
    strLe a c = true :=
  lexLe_trans chLt chLt_trans chLt_eq a.data b.data c.data h1 h2

theorem pathLe_total (a b : List String) : (pathLe a b || pathLe b a) = true :=
  lexLe_total strLt a b

theorem pathLe_trans (a b c : List String) (h1 : pathLe a b = true) (h2 : pathLe b c = true) :
    pathLe a c = true :=
  lexLe_trans strLt strLt_trans strLt_eq a b c h1 h2

theorem sumLe_total (a b : SummaryEntry) : (sumLe a b || sumLe b a) = true := by
  simp only [sumLe]
  rcases Nat.lt_trichotomy a.count b.count with h | h | h
  · simp [h]
  · have := strLe_total a.error_name b.error_name
    rcases Bool.or_eq_true_iff.mp this with hs | hs
    · simp [h, hs]
    · simp [h, hs]
  · simp [h]

theorem sumLe_trans (a b c : SummaryEntry) (h1 : sumLe a b = true) (h2 : sumLe b c = true) :
    sumLe a c = true := by
  simp only [sumLe, Bool.or_eq_true_iff, Bool.and_eq_true, decide_eq_true_eq] at h1 h2 ⊢
  rcases h1 with h1 | ⟨h1e, h1s⟩
  · rcases h2 with h2 | ⟨h2e, _⟩
    · exact Or.inl (Nat.lt_trans h2 h1)
    · exact Or.inl (h2e ▸ h1)
  · rcases h2 with h2 | ⟨h2e, h2s⟩
    · exact Or.inl (h1e ▸ h2)
    · exact Or.inr ⟨h1e.trans h2e, strLe_trans _ _ _ h1s h2s⟩

/-! ## Lemmas about the stable insertion sort -/

theorem insertSorted_perm (le : α → α → Bool) (a : α) :
    ∀ l : List α, (insertSorted le a l).Perm (a :: l) := by
  intro l
  induction l with
  | nil => simp [insertSorted]
  | cons b l ih =>
    unfold insertSorted
    by_cases h : le a b = true
    · simp [h]
    · simp only [h, if_false, Bool.false_eq_true]
      exact (ih.cons b).trans (List.Perm.swap a b l)

theorem sortBy_perm (le : α → α → Bool) : ∀ l : List α, (sortBy le l).Perm l := by
  intro l
  induction l with
  | nil => simp [sortBy]
  | cons a l ih =>
    unfold sortBy
    exact (insertSorted_perm le a (sortBy le l)).trans (ih.cons a)

theorem insertSorted_pairwise (le : α → α → Bool)
    (htr : ∀ a b c, le a b = true → le b c = true → le a c = true)
    (htot : ∀ a b, (le a b || le b a) = true) (a : α) :
    ∀ l : List α, List.Pairwise (fun x y => le x y = true) l →
      List.Pairwise (fun x y => le x y = true) (insertSorted le a l) := by
  intro l
  induction l with
  | nil => intro _; simp [insertSorted]
  | cons b l ih =>
    intro h
    unfold insertSorted
    by_cases hab : le a b = true
    · rw [if_pos hab]
      refine List.Pairwise.cons ?_ h
      intro x hx
      rcases List.mem_cons.mp hx with rfl | hx
      · exact hab
      · exact htr a b x hab (List.rel_of_pairwise_cons h hx)
    · have hba : le b a = true := by
        have := htot a b
        simp [hab] at this
        exact this
      rw [if_neg hab]
      refine List.Pairwise.cons ?_ (ih h.of_cons)
      intro x hx
      have hx2 : x ∈ a :: l := (insertSorted_perm le a l).mem_iff.mp hx
      rcases List.mem_cons.mp hx2 with rfl | hx3
      · exact hba
      · exact List.rel_of_pairwise_cons h hx3

theorem sortBy_pairwise (le : α → α → Bool)
    (htr : ∀ a b c, le a b = true → le b c = true → le a c = true)
    (htot : ∀ a b, (le a b || le b a) = true) :
    ∀ l : List α, List.Pairwise (fun x y => le x y = true) (sortBy le l) := by
  intro l
  induction l with
  | nil => simp [sortBy]
  | cons a l ih =>
    unfold sortBy
    exact insertSorted_pairwise le htr htot a (sortBy le l) ih

/-! ## Helper lemmas about the registry scan -/

theorem firstMatch_earliest (line : List Char) :
    ∀ (pats : List (String × Regex)) (i : Nat) (hi : i < pats.length),
      rsearch (pats.get ⟨i, hi⟩).2 line = true →
      (∀ j (hj : j < i), rsearch (pats.get ⟨j, Nat.lt_trans hj hi⟩).2 line = false) →
      firstMatch pats line = some (pats.get ⟨i, hi⟩).1 := by
  intro pats
  induction pats with
  | nil => intro i hi; exact absurd hi (Nat.not_lt_zero i)
  | cons p rest ih =>
    intro i hi hm hf
    cases i with
    | zero =>
      simp only [List.get] at hm ⊢
      simp [firstMatch, hm]
    | succ k =>
      have h0 : rsearch p.2 line = false := by
        have := hf 0 (Nat.succ_pos k)
        simpa using this
      have hk : k < rest.length := Nat.lt_of_succ_lt_succ hi
      have hm' : rsearch (rest.get ⟨k, hk⟩).2 line = true := by
        simpa using hm
      have hf' : ∀ j (hj : j < k),
          rsearch (rest.get ⟨j, Nat.lt_trans hj hk⟩).2 line = false := by
        intro j hj
        have := hf (j + 1) (Nat.succ_lt_succ hj)
        simpa using this
      simp only [firstMatch, h0]
      simpa using ih k hk hm' hf'

theorem scanLine_occ_le (path : String) (st : AnalysisState) (n : Nat) (line : List Char) :
    (scanLine path st n line).occurrences.length ≤ st.occurrences.length + 1 := by
  unfold scanLine
  cases h : matchLine line <;> simp

/-! ## Helper lemmas for the count partition invariant -/

/-- Total of the counts over a summary. -/
def sumCounts (s : List SummaryEntry) : Nat := (s.map SummaryEntry.count).sum

theorem ingestOcc_count (e : SummaryEntry) (occ : Occurrence) :
    (ingestOcc e occ).count = e.count + 1 := by
  unfold ingestOcc
  by_cases h : occ.timestamp = "" <;> simp [h]

theorem ingestOcc_first (e : SummaryEntry) (occ : Occurrence) :
    (ingestOcc e occ).error_name = e.error_name := by
  unfold ingestOcc
  by_cases h : occ.timestamp = "" <;> simp [h]

theorem sumCounts_ingest (s : List SummaryEntry) (occ : Occurrence) :
    sumCounts (ingest s occ) = sumCounts s + 1 := by
  induction s with
  | nil => simp [ingest, sumCounts, ingestOcc_count, newEntry]
  | cons e rest ih =>
    by_cases h : e.error_name = occ.error_name
    · simp [ingest, h, sumCounts, ingestOcc_count]
      omega
    · simp only [ingest, if_neg h]
      simp [sumCounts] at ih ⊢
      omega

theorem ingest_count_pos (s : List SummaryEntry) (occ : Occurrence)
    (h : ∀ e ∈ s, 1 ≤ e.count) : ∀ e ∈ ingest s occ, 1 ≤ e.count := by
  induction s with
  | nil =>
    intro e he
    simp [ingest] at he
    subst he
    simp [ingestOcc_count]
  | cons x rest ih =>
    intro e he
    by_cases hx : x.error_name = occ.error_name
    · simp only [ingest, if_pos hx] at he
      rcases List.mem_cons.mp he with rfl | hmem
      · simp [ingestOcc_count]
      · exact h e (List.mem_cons_of_mem x hmem)
    · simp only [ingest, if_neg hx] at he
      rcases List.mem_cons.mp he with rfl | hmem
      · exact h e (List.mem_cons_self e rest)
      · exact ih (fun e' he' => h e' (List.mem_cons_of_mem x he')) e hmem

/-- The invariant of the analysis state carried through a run: the counts
partition the occurrence list and every entry was created by at least one
occurrence. -/
def stInv (st : AnalysisState) : Prop :=
  sumCounts st.summary = st.occurrences.length ∧ ∀ e ∈ st.summary, 1 ≤ e.count

theorem scanLine_stInv (path : String) (st : AnalysisState) (n : Nat) (line : List Char)
    (h : stInv st) : stInv (scanLine path st n line) := by
  unfold scanLine
  cases hm : matchLine line
  · exact h
  · refine ⟨?_, ?_⟩
    · simp [sumCounts_ingest, h.1]
    · exact ingest_count_pos _ _ h.2

theorem scanLines_stInv (path : String) :
    ∀ (ls : List (List Char)) (st : AnalysisState) (n : Nat),
      stInv st → stInv (scanLines path st n ls) := by
  intro ls
  induction ls with
  | nil => intro st n h; exact h
  | cons l ls ih =>
    intro st n h
    exact ih _ _ (scanLine_stInv path st n l h)

theorem processFile_stInv (st : AnalysisState) (f : FileData) (h : stInv st) :
    stInv (processFile st f) := by
  unfold processFile
  have h1 := scanLines_stInv f.path f.lines st 1 h
  by_cases hf : f.failsAfter <;> simp [hf] <;> exact h1

theorem processFiles_stInv :
    ∀ (fs : List FileData) (st : AnalysisState), stInv st → stInv (processFiles st fs) := by
  intro fs
  induction fs with
  | nil => intro st h; exact h
  | cons f fs ih => intro st h; exact ih _ (processFile_stInv st f h)

theorem finalize_sumCounts (s : List SummaryEntry) :
    sumCounts (s.map finalizeEntry) = sumCounts s := by
  induction s with
  | nil => rfl
  | cons e rest ih => simp [sumCounts, finalizeEntry] at ih ⊢; omega

theorem analyze_files_stInv (files : List FileData) : stInv (analyze_files files) := by
  have h := processFiles_stInv files ⟨[], [], []⟩ ⟨rfl, by simp⟩
  unfold analyze_files
  refine ⟨?_, ?_⟩
  · simpa [finalize_sumCounts] using h.1
  · intro e he
    simp only [List.mem_map] at he
    obtain ⟨e', he', rfl⟩ := he
    have := h.2 e' he'
    simpa [finalizeEntry] using this

/-! ## Helper lemmas for the chronological-bound invariant -/

/-- The chronological invariant of one entry: the two bounds are the same
string, or both parse and the first is no later than the last. -/
def tsOrdered (e : SummaryEntry) : Prop :=
  e.first_seen = e.last_seen ∨
  ∃ a b, parseTsPy e.first_seen = some a ∧ parseTsPy e.last_seen = some b ∧ a ≤ b

theorem parseTsPy_empty : parseTsPy "" = none := rfl

theorem pyTsUpdate_ordered (first last ts : String)
    (h : first = last ∨
      ∃ a b, parseTsPy first = some a ∧ parseTsPy last = some b ∧ a ≤ b) :
    (pyTsUpdate first last ts).1 = (pyTsUpdate first last ts).2 ∨
    ∃ a b, parseTsPy (pyTsUpdate first last ts).1 = some a ∧
      parseTsPy (pyTsUpdate first last ts).2 = some b ∧ a ≤ b := by
  rcases h with heq | ⟨a, b, ha, hb, hab⟩
  · subst heq
    unfold pyTsUpdate
    cases hp : parseTsPy (if first = "" then ts else first) with
    | none => simp [hp]
    | some fdt =>
      cases hpt : parseTsPy ts with
      | none => simp [hp, hpt]
      | some cdt =>
        simp only [hp, hpt]
        by_cases hlt : cdt < fdt
        · have hgt : ¬ cdt > fdt := by omega
          simp only [if_pos hlt, if_neg hgt]
          exact Or.inr ⟨cdt, fdt, hpt, hp, Nat.le_of_lt hlt⟩
        · by_cases hgt : cdt > fdt
          · simp only [if_neg hlt, if_pos hgt]
            exact Or.inr ⟨fdt, cdt, hp, hpt, Nat.le_of_lt hgt⟩
          · simp only [if_neg hlt, if_neg hgt]
            left
            trivial
  · have hf : ¬ first = "" := by
      intro h0
      rw [h0, parseTsPy_empty] at ha
      cases ha
    have hl : ¬ last = "" := by
      intro h0
      rw [h0, parseTsPy_empty] at hb
      cases hb
    unfold pyTsUpdate
    simp only [if_neg hf, if_neg hl, ha, hb]
    cases hpt : parseTsPy ts with
    | none => exact Or.inr ⟨a, b, ha, hb, hab⟩
    | some cdt =>
      by_cases hlt : cdt < a
      · by_cases hgt : cdt > b
        · simp only [if_pos hlt, if_pos hgt]
          left
          trivial
        · simp only [if_pos hlt, if_neg hgt]
          exact Or.inr ⟨cdt, b, hpt, hb, by omega⟩
      · by_cases hgt : cdt > b
        · simp only [if_neg hlt, if_pos hgt]
          exact Or.inr ⟨a, cdt, ha, hpt, by omega⟩
        · simp only [if_neg hlt, if_neg hgt]
          exact Or.inr ⟨a, b, ha, hb, hab⟩

theorem ingestOcc_tsOrdered (e : SummaryEntry) (occ : Occurrence) (h : tsOrdered e) :
    tsOrdered (ingestOcc e occ) := by
  unfold ingestOcc
  by_cases ht : occ.timestamp = ""
  · simpa [ht, tsOrdered] using h
  · simp only [ht, if_neg ht, tsOrdered]
    exact pyTsUpdate_ordered e.first_seen e.last_seen occ.timestamp h

theorem newEntry_tsOrdered (occ : Occurrence) : tsOrdered (ingestOcc (newEntry occ) occ) :=
  ingestOcc_tsOrdered (newEntry occ) occ (Or.inl rfl)

theorem ingest_tsOrdered (s : List SummaryEntry) (occ : Occurrence)
    (h : ∀ e ∈ s, tsOrdered e) : ∀ e ∈ ingest s occ, tsOrdered e := by
  induction s with
  | nil =>
    intro e he
    simp [ingest] at he
    subst he
    exact newEntry_tsOrdered occ
  | cons x rest ih =>
    intro e he
    by_cases hx : x.error_name = occ.error_name
    · simp only [ingest, if_pos hx] at he
      rcases List.mem_cons.mp he with rfl | hmem
      · exact ingestOcc_tsOrdered x occ (h x (List.mem_cons_self x rest))
      · exact h e (List.mem_cons_of_mem x hmem)
    · simp only [ingest, if_neg hx] at he
      rcases List.mem_cons.mp he with rfl | hmem
      · exact h e (List.mem_cons_self e rest)
      · exact ih (fun e' he' => h e' (List.mem_cons_of_mem x he')) e hmem

theorem foldl_ingest_tsOrdered (occs : List Occurrence) :
    ∀ (s : List SummaryEntry), (∀ e ∈ s, tsOrdered e) →
      ∀ e ∈ occs.foldl ingest s, tsOrdered e := by
  induction occs with
  | nil => intro s h; exact h
  | cons o occs ih =>
    intro s h
    exact ih (ingest s o) (ingest_tsOrdered s o h)

theorem scanLine_tsOrdered (path : String) (st : AnalysisState) (n : Nat) (line : List Char)
    (h : ∀ e ∈ st.summary, tsOrdered e) :
    ∀ e ∈ (scanLine path st n line).summary, tsOrdered e := by
  unfold scanLine
  cases hm : matchLine line
  · exact h
  · exact ingest_tsOrdered _ _ h

theorem scanLines_tsOrdered (path : String) :
    ∀ (ls : List (List Char)) (st : AnalysisState) (n : Nat),
      (∀ e ∈ st.summary, tsOrdered e) →
      ∀ e ∈ (scanLines path st n ls).summary, tsOrdered e := by
  intro ls
  induction ls with
  | nil => intro st n h; exact h
  | cons l ls ih =>
    intro st n h
    exact ih _ _ (scanLine_tsOrdered path st n l h)

theorem processFiles_tsOrdered :
    ∀ (fs : List FileData) (st : AnalysisState),
      (∀ e ∈ st.summary, tsOrdered e) →
      ∀ e ∈ (processFiles st fs).summary, tsOrdered e := by
  intro fs
  induction fs with
  | nil => intro st h; exact h
  | cons f fs ih =>
    intro st h
    refine ih _ ?_
    unfold processFile
    have h1 := scanLines_tsOrdered f.path f.lines st 1 h
    by_cases hf : f.failsAfter <;> simp [hf] <;> exact h1

theorem analyze_files_tsOrdered (files : List FileData) :
    ∀ e ∈ (analyze_files files).summary, tsOrdered e := by
  intro e he
  unfold analyze_files at he
  simp only [List.mem_map] at he
  obtain ⟨e', he', rfl⟩ := he
  have := processFiles_tsOrdered files ⟨[], [], []⟩ (by simp) e' he'
  unfold tsOrdered at this ⊢
  simpa [finalizeEntry] using this

/-! ## Helper lemmas: the occurrence list and summary do not depend on the
warnings accumulated so far -/

theorem scanLine_shape (path : String) (o : List Occurrence) (su : List SummaryEntry)
    (w : List String) (n : Nat) (line : List Char) :
    scanLine path ⟨o, su, w⟩ n line =
      ⟨(scanLine path ⟨o, su, []⟩ n line).occurrences,
       (scanLine path ⟨o, su, []⟩ n line).summary, w⟩ := by
  unfold scanLine
  cases hm : matchLine line <;> simp

theorem scanLines_shape (path : String) :
    ∀ (ls : List (List Char)) (o : List Occurrence) (su : List SummaryEntry)
      (w : List String) (n : Nat),
      scanLines path ⟨o, su, w⟩ n ls =
        ⟨(scanLines path ⟨o, su, []⟩ n ls).occurrences,
         (scanLines path ⟨o, su, []⟩ n ls).summary, w⟩ := by
  intro ls
  induction ls with
  | nil => intro o su w n; rfl
  | cons l ls ih =>
    intro o su w n
    show scanLines path (scanLine path ⟨o, su, w⟩ n l) (n + 1) ls =
      ⟨(scanLines path (scanLine path ⟨o, su, []⟩ n l) (n + 1) ls).occurrences,
       (scanLines path (scanLine path ⟨o, su, []⟩ n l) (n + 1) ls).summary, w⟩
    rw [scanLine_shape path o su w n l, scanLine_shape path o su [] n l]
    exact ih _ _ _ _

theorem processFiles_core :
    ∀ (fs : List FileData) (o : List Occurrence) (su : List SummaryEntry)
      (w w' : List String),
      (processFiles ⟨o, su, w⟩ fs).occurrences = (processFiles ⟨o, su, w'⟩ fs).occurrences ∧
      (processFiles ⟨o, su, w⟩ fs).summary = (processFiles ⟨o, su, w'⟩ fs).summary := by
  intro fs
  induction fs with
  | nil => intro o su w w'; exact ⟨rfl, rfl⟩
  | cons f fs ih =>
    intro o su w w'
    show (processFiles (processFile ⟨o, su, w⟩ f) fs).occurrences =
        (processFiles (processFile ⟨o, su, w'⟩ f) fs).occurrences ∧
      (processFiles (processFile ⟨o, su, w⟩ f) fs).summary =
        (processFiles (processFile ⟨o, su, w'⟩ f) fs).summary
    unfold processFile
    rw [scanLines_shape f.path f.lines o su w 1, scanLines_shape f.path f.lines o su w' 1]
    by_cases hf : f.failsAfter <;> simp only [hf, if_true, if_false, Bool.false_eq_true] <;>
      exact ih _ _ _ _

/-! ## Helper lemmas: occurrence counting per file -/

/-- Number of lines of a file that match some signature. -/
def matchCount (ls : List (List Char)) : Nat :=
  (ls.filter (fun l => (matchLine l).isSome)).length

theorem scanLines_occ_len (path : String) :
    ∀ (ls : List (List Char)) (st : AnalysisState) (n : Nat),
      (scanLines path st n ls).occurrences.length =
        st.occurrences.length + matchCount ls := by
  intro ls
  induction ls with
  | nil => intro st n; simp [scanLines, matchCount]
  | cons l ls ih =>
    intro st n
    show (scanLines path (scanLine path st n l) (n + 1) ls).occurrences.length = _
    rw [ih]
    unfold scanLine
    cases hm : matchLine l with
    | none => simp [matchCount, List.filter, hm]
    | some name => simp [matchCount, List.filter, hm]; omega

theorem processFile_occ_len (st : AnalysisState) (f : FileData) :
    (processFile st f).occurrences.length = st.occurrences.length + matchCount f.lines := by
  unfold processFile
  by_cases hf : f.failsAfter <;> simp [hf, scanLines_occ_len]

theorem analyze_files_occ (files : List FileData) :
    (analyze_files files).occurrences = (processFiles ⟨[], [], []⟩ files).occurrences := rfl

/-! ## Helper lemmas about the timestamp layouts -/

theorem isTs1At_shape (cs v : List Char) (h : isTs1At cs = some v) : isDMYShape v = true := by
  unfold isTs1At at h
  split at h
  · rename_i a b c d e f g k rest
    split at h
    · rename_i hcond
      injection h with h
      subst h
      simp only [Bool.and_eq_true] at hcond
      obtain ⟨⟨⟨⟨⟨⟨⟨⟨h1, h2⟩, h3⟩, h4⟩, h5⟩, h6⟩, h7⟩, h8⟩, h9⟩ := hcond
      simp [isDMYShape, h1, h2, h3, h4, h5, h6, h7, h8]
    · exact absurd h (by simp)
  · exact absurd h (by simp)

theorem findTs1_shape (cs v : List Char) (h : findTs1 cs = some v) : isDMYShape v = true := by
  induction cs with
  | nil => simp [findTs1] at h
  | cons c cs ih =>
    unfold findTs1 at h
    cases ht : isTs1At (c :: cs) with
    | some w =>
      rw [ht] at h
      injection h with h
      subst h
      exact isTs1At_shape _ _ ht
    | none =>
      rw [ht] at h
      exact ih h

theorem isTs2At_len (cs v : List Char) (h : isTs2At cs = some v) : v.length = 19 := by
  unfold isTs2At at h
  split at h
  · split at h
    · injection h with h
      subst h
      rfl
    · exact absurd h (by simp)
  · exact absurd h (by simp)

theorem findTs2_len (cs v : List Char) (h : findTs2 cs = some v) : v.length = 19 := by
  induction cs with
  | nil => simp [findTs2] at h
  | cons c cs ih =>
    unfold findTs2 at h
    cases ht : isTs2At (c :: cs) with
    | some w =>
      rw [ht] at h
      injection h with h
      subst h
      exact isTs2At_len _ _ ht
    | none =>
      rw [ht] at h
      exact ih h

theorem isDMYShape_len (v : List Char) (h : isDMYShape v = true) : v.length = 10 := by
  unfold isDMYShape at h
  split at h
  · rfl
  · exact absurd h (by simp)

/-! ## Claim theorems -/

/-- C1: for an input line matching two or more registered signatures, the
classification equals the earliest-registered matching signature, patterns
being tested in registry order with later signatures untested once one
matches, and a line grows the occurrence list by at most one record. -/
theorem earliest_signature_owns_line (line : List Char) (i : Nat)
    (hi : i < compiledPatterns.length)
    (hmatch : rsearch (compiledPatterns.get ⟨i, hi⟩).2 line = true)
    (hearlier : ∀ j (hj : j < i),
      rsearch (compiledPatterns.get ⟨j, Nat.lt_trans hj hi⟩).2 line = false)
    (_hmulti : ∃ k, ∃ hk : k < compiledPatterns.length, k ≠ i ∧
      rsearch (compiledPatterns.get ⟨k, hk⟩).2 line = true) :
    matchLine line = some (compiledPatterns.get ⟨i, hi⟩).1 ∧
    ∀ (path : String) (st : AnalysisState) (n : Nat),
      (scanLine path st n line).occurrences.length ≤ st.occurrences.length + 1 :=
  ⟨firstMatch_earliest line compiledPatterns i hi hmatch hearlier,
   fun path st n => scanLine_occ_le path st n line⟩

/-- Witness for C1: a concrete line matching both NetworkError and
TunnelError is classified as NetworkError, the earlier signature. -/
theorem earliest_signature_owns_line_witness :
    matchLine (("nsUtils err: 5 tunnel not found").data) = some "NetworkError" ∧
    (scanLine "a.txt" ⟨[], [], []⟩ 1
        (("nsUtils err: 5 tunnel not found").data)).occurrences.length ≤
      (⟨[], [], []⟩ : AnalysisState).occurrences.length + 1 := by
  have h := earliest_signature_owns_line (("nsUtils err: 5 tunnel not found").data) 0
    (by decide) (by decide) (fun j hj => absurd hj (Nat.not_lt_zero j))
    ⟨1, by decide, by decide, by decide⟩
  exact ⟨h.1, h.2 "a.txt" ⟨[], [], []⟩ 1⟩

/-- C2: after a full run the counts over all summary entries sum to the
number of occurrence records produced, and every entry that exists has
count at least one. -/
theorem summary_counts_partition_occurrences (files : List FileData) :
    sumCounts (analyze_files files).summary = (analyze_files files).occurrences.length ∧
    ∀ e ∈ (analyze_files files).summary, 1 ≤ e.count :=
  ⟨(analyze_files_stInv files).1, (analyze_files_stInv files).2⟩

/-- Witness for C2: a concrete two-line run with one matching line per
signature in play. -/
theorem summary_counts_partition_occurrences_witness :
    sumCounts (analyze_files [⟨"a.txt", [("forbidden").data, ("no match").data], false⟩]).summary
      = (analyze_files [⟨"a.txt", [("forbidden").data, ("no match").data], false⟩]).occurrences.length ∧
    1 ≤ (⟨"Proxy403", 1, "", "", ["a.txt"], "forbidden"⟩ : SummaryEntry).count := by
  have h := summary_counts_partition_occurrences
    [⟨"a.txt", [("forbidden").data, ("no match").data], false⟩]
  exact ⟨h.1, h.2 ⟨"Proxy403", 1, "", "", ["a.txt"], "forbidden"⟩ (by decide)⟩

/-- C3: at the end of aggregation, every entry whose first_seen and
last_seen both parse has its first_seen instant no later than its last_seen
instant, for every sequence of ingested occurrences, including occurrences
with missing or non-parseable timestamps. -/
theorem aggregated_first_seen_le_last_seen (occs : List Occurrence) (files : List FileData)
    (e : SummaryEntry)
    (he : e ∈ occs.foldl ingest [] ∨ e ∈ (analyze_files files).summary)
    (a b : Nat)
    (ha : parseTsPy e.first_seen = some a) (hb : parseTsPy e.last_seen = some b) :
    a ≤ b := by
  have hts : tsOrdered e := by
    rcases he with he | he
    · exact foldl_ingest_tsOrdered occs [] (by simp) e he
    · exact analyze_files_tsOrdered files e he
  rcases hts with heq | ⟨a', b', ha', hb', hab⟩
  · rw [heq, hb] at ha
    injection ha with ha
    omega
  · rw [ha'] at ha
    rw [hb'] at hb
    injection ha with ha
    injection hb with hb
    omega

/-- Witness for C3: three same-name occurrences, the third with a
non-parseable timestamp, leave parseable ordered bounds. -/
theorem aggregated_first_seen_le_last_seen_witness :
    (parseTsPy "2025-04-09T01:02:03").getD 0 ≤ (parseTsPy "2025-04-10T12:00:00").getD 0 :=
  aggregated_first_seen_le_last_seen
    [⟨"NetworkError", "a.txt", 1, "2025-04-10T12:00:00", "", "", "m1"⟩,
     ⟨"NetworkError", "a.txt", 2, "2025-04-09T01:02:03", "", "", "m2"⟩,
     ⟨"NetworkError", "a.txt", 3, "zzz", "", "", "m3"⟩] []
    ⟨"NetworkError", 3, "2025-04-09T01:02:03", "2025-04-10T12:00:00", ["a.txt"], "m1"⟩
    (Or.inl (by decide))
    ((parseTsPy "2025-04-09T01:02:03").getD 0) ((parseTsPy "2025-04-10T12:00:00").getD 0)
    (by decide) (by decide)

/-- C4 counterexample: on a line whose ISO-layout substring is not a real
calendar instant, extract_timestamp returns the space-to-T-normalized form
of the matched substring, not the raw matched substring itself. -/
theorem raw_substring_claim_refuted :
    findTs1 (("2025-13-45 11:22:33 oops").data) = none ∧
    findTs2 (("2025-13-45 11:22:33 oops").data) = some (("2025-13-45 11:22:33").data) ∧
    parseTsPy "2025-13-45 11:22:33" = none ∧
    extract_timestamp (("2025-13-45 11:22:33 oops").data) = some "2025-13-45T11:22:33" ∧
    extract_timestamp (("2025-13-45 11:22:33 oops").data) ≠ some "2025-13-45 11:22:33" := by
  decide

/-- C4 amended: when a timestamp-shaped substring is matched but cannot be
parsed into a real calendar instant, extract_timestamp still returns a
value rather than nothing: the raw matched substring for the bracketed
DD/MM/YYYY layout, and the matched substring with its space separator
normalized to T for the ISO layout. -/
theorem unparseable_timestamp_still_extracted :
    (∀ (line v : List Char), findTs1 line = some v → dmyValid v = false →
      extract_timestamp line = some (String.mk v)) ∧
    (∀ (line v : List Char), findTs1 line = none → findTs2 line = some v →
      extract_timestamp line = some (String.mk (replSpT v))) := by
  constructor
  · intro line v h1 hv
    simp [extract_timestamp, h1, normTs, findTs1_shape line v h1, hv]
  · intro line v h1 h2
    have hlen := findTs2_len line v h2
    have hshape : isDMYShape v = false := by
      cases hs : isDMYShape v
      · rfl
      · have := isDMYShape_len v hs
        omega
    simp [extract_timestamp, h1, h2, normTs, hshape]

/-- Witness for C4 amended: an impossible bracketed date is returned raw,
and an impossible ISO stamp is returned with its separator normalized. -/
theorem unparseable_timestamp_still_extracted_witness :
    extract_timestamp (("[99/99/9999 | x").data) = some (String.mk (("99/99/9999").data)) ∧
    extract_timestamp (("2025-13-45 11:22:33 oops").data) =
      some (String.mk (replSpT (("2025-13-45 11:22:33").data))) :=
  ⟨unparseable_timestamp_still_extracted.1 (("[99/99/9999 | x").data) (("99/99/9999").data)
    (by decide) (by decide),
   unparseable_timestamp_still_extracted.2 (("2025-13-45 11:22:33 oops").data)
    (("2025-13-45 11:22:33").data) (by decide) (by decide)⟩

/-- C5: the summary emitter is a pure function of the summary, so two runs
on the same aggregation result render identical bytes, and its row order is
a permutation of the entries sorted by count descending with the error name
ascending as tie-break. -/
theorem summary_csv_deterministic_and_sorted (s : List SummaryEntry) :
    write_csv_summary s = write_csv_summary s ∧
    (summaryRows s).Perm s ∧
    List.Pairwise (fun a b => sumLe a b = true) (summaryRows s) :=
  ⟨rfl, sortBy_perm sumLe s, sortBy_pairwise sumLe sumLe_trans sumLe_total s⟩

/-- C6: when no input files resolve, the run exits with the distinct
non-zero status 2, writes no report file, and never runs the analysis. -/
theorem no_input_files_fatal_exit (fs : FileSys) (args : MainArgs)
    (h : iter_input_files fs args.input = []) :
    (main fs args).1 = [.mkdirParents args.output, .resolveInputs args.input, .exitWith 2] ∧
    (main fs args).1.filter isWriteEvent = [] ∧
    (main fs args).2 = none ∧
    (2 : Nat) ≠ 0 := by
  unfold main
  rw [h]
  simp [isWriteEvent]

/-- Witness for C6: a file system resolving nothing yields the abort trace
with no writes. -/
theorem no_input_files_fatal_exit_witness :
    (main ⟨fun _ => false, fun _ => false, fun _ => [], fun _ => [], fun _ => false⟩
        ⟨["logs"], "out", "logs", false⟩).1 =
      [.mkdirParents "out", .resolveInputs ["logs"], .exitWith 2] ∧
    ((main ⟨fun _ => false, fun _ => false, fun _ => [], fun _ => [], fun _ => false⟩
        ⟨["logs"], "out", "logs", false⟩).1.filter isWriteEvent) = [] ∧
    (main ⟨fun _ => false, fun _ => false, fun _ => [], fun _ => [], fun _ => false⟩
        ⟨["logs"], "out", "logs", false⟩).2 = none ∧
    (2 : Nat) ≠ 0 :=
  no_input_files_fatal_exit
    ⟨fun _ => false, fun _ => false, fun _ => [], fun _ => [], fun _ => false⟩
    ⟨["logs"], "out", "logs", false⟩ (by decide)

/-- C7: the example line produces exactly one occurrence, named
NetworkError, with the space-separated stamp normalized to ISO-8601 T form;
the full analysis state of the one-file run is computed. -/
theorem example_line_yields_single_network_error :
    analyze_files [⟨"app.txt", [("2025-04-10 12:00:00 nsUtils failed err: 5").data], false⟩] =
      ⟨[⟨"NetworkError", "app.txt", 1, "2025-04-10T12:00:00", "", "",
         "2025-04-10 12:00:00 nsUtils failed err: 5"⟩],
       [⟨"NetworkError", 1, "2025-04-10T12:00:00", "2025-04-10T12:00:00", ["app.txt"],
         "2025-04-10 12:00:00 nsUtils failed err: 5"⟩], []⟩ := by
  decide

/-- C8: the resolved input list is sorted, holds no two equal path values,
retains every path value the arguments resolve to even when two different
values denote the same underlying file, and a file reached through two
spellings is scanned once per spelling. -/
theorem inputs_deduplicated_by_path_value (fs : FileSys) (inputs : List String) :
    List.Pairwise (fun a b => pathLe a b = true) (iter_input_files fs inputs) ∧
    (iter_input_files fs inputs).Nodup ∧
    (∀ p, p ∈ iter_input_files fs inputs ↔ p ∈ collectInputs fs inputs) ∧
    pathParts "sub/../x.txt" ≠ pathParts "x.txt" ∧
    (∀ (p1 p2 : List String) (lines : List (List Char)),
      (analyze_files [⟨pathStr p1, lines, false⟩,
        ⟨pathStr p2, lines, false⟩]).occurrences.length =
        2 * (analyze_files [⟨pathStr p1, lines, false⟩]).occurrences.length) := by
  refine ⟨?_, ?_, ?_, by decide, ?_⟩
  · exact sortBy_pairwise pathLe pathLe_trans pathLe_total _
  · exact ((sortBy_perm pathLe _).symm).nodup (List.nodup_dedup _)
  · intro p
    unfold iter_input_files
    rw [(sortBy_perm pathLe _).mem_iff, List.mem_dedup]
  · intro p1 p2 lines
    rw [analyze_files_occ, analyze_files_occ]
    show (processFiles (processFile (processFile ⟨[], [], []⟩ ⟨pathStr p1, lines, false⟩)
        ⟨pathStr p2, lines, false⟩) []).occurrences.length =
      2 * (processFiles (processFile ⟨[], [], []⟩ ⟨pathStr p1, lines, false⟩) []).occurrences.length
    show (processFile (processFile ⟨[], [], []⟩ ⟨pathStr p1, lines, false⟩)
        ⟨pathStr p2, lines, false⟩).occurrences.length =
      2 * (processFile ⟨[], [], []⟩ ⟨pathStr p1, lines, false⟩).occurrences.length
    rw [processFile_occ_len, processFile_occ_len]
    simp only [List.length_nil]
    omega

/-- Witness for C8: two spellings of one file, one through a parent-dot
component, are both retained and scanned separately. -/
theorem inputs_deduplicated_by_path_value_witness :
    List.Pairwise (fun a b => pathLe a b = true)
      (iter_input_files
        ⟨fun _ => false, fun s => s == "x.txt" || s == "sub/../x.txt", fun _ => [],
         fun _ => [("forbidden").data], fun _ => false⟩ ["x.txt", "sub/../x.txt"]) ∧
    (iter_input_files
      ⟨fun _ => false, fun s => s == "x.txt" || s == "sub/../x.txt", fun _ => [],
       fun _ => [("forbidden").data], fun _ => false⟩ ["x.txt", "sub/../x.txt"]).Nodup ∧
    (["x.txt"] ∈ iter_input_files
        ⟨fun _ => false, fun s => s == "x.txt" || s == "sub/../x.txt", fun _ => [],
         fun _ => [("forbidden").data], fun _ => false⟩ ["x.txt", "sub/../x.txt"] ↔
      ["x.txt"] ∈ collectInputs
        ⟨fun _ => false, fun s => s == "x.txt" || s == "sub/../x.txt", fun _ => [],
         fun _ => [("forbidden").data], fun _ => false⟩ ["x.txt", "sub/../x.txt"]) ∧
    pathParts "sub/../x.txt" ≠ pathParts "x.txt" ∧
    (analyze_files [⟨pathStr (pathParts "x.txt"), [("forbidden").data], false⟩,
        ⟨pathStr (pathParts "sub/../x.txt"), [("forbidden").data], false⟩]).occurrences.length =
      2 * (analyze_files
        [⟨pathStr (pathParts "x.txt"), [("forbidden").data], false⟩]).occurrences.length := by
  have h := inputs_deduplicated_by_path_value
    ⟨fun _ => false, fun s => s == "x.txt" || s == "sub/../x.txt", fun _ => [],
     fun _ => [("forbidden").data], fun _ => false⟩ ["x.txt", "sub/../x.txt"]
  exact ⟨h.1, h.2.1, h.2.2.1 ["x.txt"], h.2.2.2.1,
    h.2.2.2.2 (pathParts "x.txt") (pathParts "sub/../x.txt") [("forbidden").data]⟩

/-- C9: a file whose read fails after some lines were scanned keeps the
occurrences and summary updates of the already-read lines in the final
result, exactly as if the readable prefix were the whole file, and the
remaining files are processed unchanged. -/
theorem partial_read_results_retained (p : String) (lines : List (List Char))
    (rest : List FileData) :
    (analyze_files (⟨p, lines, true⟩ :: rest)).occurrences =
      (analyze_files (⟨p, lines, false⟩ :: rest)).occurrences ∧
    (analyze_files (⟨p, lines, true⟩ :: rest)).summary =
      (analyze_files (⟨p, lines, false⟩ :: rest)).summary := by
  constructor
  · rw [analyze_files_occ, analyze_files_occ]
    exact (processFiles_core rest _ _ _ _).1
  · show ((processFiles ⟨[], [], []⟩ (⟨p, lines, true⟩ :: rest)).summary).map finalizeEntry =
      ((processFiles ⟨[], [], []⟩ (⟨p, lines, false⟩ :: rest)).summary).map finalizeEntry
    exact congrArg (List.map finalizeEntry) (processFiles_core rest _ _ _ _).2

/-- C10: the output directory is created, parents included, as the first
effect of main and before input resolution, so an aborting run has already
created it while touching nothing else in it. -/
theorem outdir_created_before_input_resolution (fs : FileSys) (args : MainArgs) :
    (main fs args).1.head? = some (.mkdirParents args.output) ∧
    ((main fs args).1.drop 1).head? = some (.resolveInputs args.input) ∧
    (iter_input_files fs args.input = [] →
      (main fs args).1 =
        [.mkdirParents args.output, .resolveInputs args.input, .exitWith 2]) := by
  refine ⟨?_, ?_, ?_⟩
  · unfold main
    by_cases h : (iter_input_files fs args.input).isEmpty <;> simp [h]
  · unfold main
    by_cases h : (iter_input_files fs args.input).isEmpty <;> simp [h]
  · intro h
    unfold main
    rw [h]
    simp

/-- Witness for C10: the abort trace of a run over an empty file system
starts with the directory creation and holds no write event. -/
theorem outdir_created_before_input_resolution_witness :
    (main ⟨fun _ => false, fun _ => false, fun _ => [], fun _ => [], fun _ => false⟩
        ⟨["d"], "o", "b", true⟩).1.head? = some (.mkdirParents "o") ∧
    ((main ⟨fun _ => false, fun _ => false, fun _ => [], fun _ => [], fun _ => false⟩
        ⟨["d"], "o", "b", true⟩).1.drop 1).head? = some (.resolveInputs ["d"]) ∧
    (main ⟨fun _ => false, fun _ => false, fun _ => [], fun _ => [], fun _ => false⟩
        ⟨["d"], "o", "b", true⟩).1 =
      [.mkdirParents "o", .resolveInputs ["d"], .exitWith 2] := by
  have h := outdir_created_before_input_resolution
    ⟨fun _ => false, fun _ => false, fun _ => [], fun _ => [], fun _ => false⟩
    ⟨["d"], "o", "b", true⟩
  exact ⟨h.1, h.2.1, h.2.2 (by decide)⟩

end LogsCategorizer
